import Mathlib

/-!
# Verification of autoMOO's correlation and column-grouping core (`utils.py`)

Shallow embedding of the two core functions of the repository:

* `correlation_matrix` (utils.py lines 102–152): builds the full pairwise
  Pearson-correlation matrix of a row-oriented dataset.
* `group_columns` (utils.py lines 155–224): greedily partitions columns into
  groups given a correlation matrix and a threshold, and re-projects the data
  onto the groups.

Python rows are dicts from column name to a numeric value; we model a row as an
association list `List (String × ℚ)` (Python dicts are insertion ordered and
have unique keys; lookups take the first matching key, which coincides with
dict lookup whenever keys are unique).  Python numbers are modelled by exact
rationals, and correlation values by real numbers (`np.corrcoef` is a real
arithmetic computation involving a square root).  Fallible Python operations
(list indexing, dict lookup) are modelled in the `Except PyErr` monad, where
`PyErr.indexError` stands for Python's `IndexError` and `PyErr.keyError` for
`KeyError`.

The float comparison `correlation_val > cor_threshold` of utils.py line 217 is
abstracted as a boolean comparison function `gtB` on the matrix-entry type, so
that the same embedding can be instantiated with exact rationals (`ratGT`),
with real numbers (`realGT`, for matrices produced by `correlation_matrix`),
and with a NaN-aware float model (`fvalGT`, where any comparison against NaN
is false, as for IEEE-754 floats).
-/

namespace AutoMOO

/-- Python runtime errors raised by the modelled code: `IndexError` from list
indexing and `KeyError` from dict lookup. -/
inductive PyErr where
  | indexError : PyErr
  | keyError : PyErr
deriving DecidableEq

/-- A dataset row: a Python dict from column name to numeric value, modelled
as an insertion-ordered association list with unique keys. -/
abbrev Row := List (String × ℚ)

/-- Python list indexing `l[i]`: raises `IndexError` when out of range. -/
def pyIdx {α : Type} (l : List α) (i : Nat) : Except PyErr α :=
  match l[i]? with
  | some x => .ok x
  | none => .error .indexError

/-- Python dict lookup `row[k]`: value at the first (unique) occurrence of the
key, `KeyError` when absent. -/
def dictGet (row : Row) (k : String) : Except PyErr ℚ :=
  match row.find? (fun p => p.1 == k) with
  | some p => .ok p.2
  | none => .error .keyError

/-- `row[list(row.keys())[i]]` (utils.py lines 133–134 and 208): the value of
the `i`-th column of a row, looked up through the row's own key list. -/
def rowAt (row : Row) (i : Nat) : Except PyErr ℚ :=
  do
    let k ← pyIdx (row.map Prod.fst) i
    dictGet row k

/-- Python dict assignment `d[k] = v`: overwrites the value at the first
(unique) occurrence of `k`, keeping its position, or appends a fresh key at
the end (dicts are insertion ordered). -/
def dictSet {β : Type} : List (String × β) → String → β → List (String × β)
  | [], k, v => [(k, v)]
  | p :: rest, k, v => if p.1 = k then (k, v) :: rest else p :: dictSet rest k v

/-- Python `d[k].append(x)` on a dict of lists: appends `x` to the list stored
at the first (unique) occurrence of `k`.  At every call site in the embedded
code the key is present (it was just assigned), so the key-absent case, a
no-op here, is unreachable. -/
def dictAppend : List (String × List String) → String → String → List (String × List String)
  | [], _, _ => []
  | p :: rest, k, x =>
    if p.1 = k then (p.1, p.2 ++ [x]) :: rest else p :: dictAppend rest k x

/-- `[row[list(row.keys())[i]] for row in data]` (utils.py lines 133–134, 208):
the `i`-th column vector of the dataset, each row contributing the value of
its own `i`-th key. -/
def colVals (data : List Row) (i : Nat) : Except PyErr (List ℚ)
  := match data with
  | [] => .ok []
  | row :: rest =>
    do
      let v ← rowAt row i
      let vs ← colVals rest i
      .ok (v :: vs)

/-- Centered values `xi - mean x` of a list of rationals (exact arithmetic;
for the empty list the mean is the junk value `0/0 = 0`, mirroring the
undefined/NaN result numpy would produce). -/
def center (x : List ℚ) : List ℚ :=
  x.map (fun v => v - x.sum / (x.length : ℚ))

/-- Sum of pairwise products of two lists (the inner product of equal-length
lists). -/
def dotSum (x y : List ℚ) : ℚ :=
  ((x.zip y).map (fun p => p.1 * p.2)).sum

/-- The Pearson correlation coefficient `np.corrcoef(x, y)[0][1]` (utils.py
line 135) in exact arithmetic: `Σ dx·dy / sqrt (Σ dx² · Σ dy²)` with
`dx, dy` the centered vectors.  This equals `cov(x,y) / (std x · std y)`: the
`1/(n-1)` normalisation factors of the covariance matrix cancel, and
`sqrt a · sqrt b = sqrt (a·b)` for the nonnegative variances.  When a vector
has zero variance the denominator is `0` and the value degenerates to the
junk value `0` of real division (numpy: NaN); the NaN-sensitive behaviour of
grouping is modelled separately via `FVal`. -/
noncomputable def pearson (x y : List ℚ) : ℝ :=
  ((dotSum (center x) (center y) : ℚ) : ℝ) /
    Real.sqrt ((dotSum (center x) (center x) * dotSum (center y) (center y) : ℚ) : ℝ)

/-- One row of the correlation matrix (the inner `for j in range(num_cols)`
loop of utils.py lines 132–136), as a list of Pearson coefficients of column
`i` against each column `j` drawn from `js`. -/
noncomputable def corRow (data : List Row) (i : Nat) : List Nat → Except PyErr (List ℝ)
  | [] => .ok []
  | j :: js =>
    do
      let x ← colVals data i
      let y ← colVals data j
      let rest ← corRow data i js
      .ok (pearson x y :: rest)

/-- The outer `for i in range(num_cols)` loop of utils.py lines 130–137. -/
noncomputable def corMat (data : List Row) (numCols : Nat) : List Nat → Except PyErr (List (List ℝ))
  | [] => .ok []
  | i :: is =>
    do
      let r ← corRow data i (List.range numCols)
      let rest ← corMat data numCols is
      .ok (r :: rest)

/-- `correlation_matrix` (utils.py lines 102–152), restricted to its
`correlations` return value (the plotly heatmap figure is rendering glue and
out of scope).  `num_cols = len(data[0])` raises `IndexError` on an empty
dataset. -/
noncomputable def correlation_matrix (data : List Row) : Except PyErr (List (List ℝ)) :=
  do
    let row0 ← pyIdx data 0
    let numCols := row0.length
    corMat data numCols (List.range numCols)

/-- The group label `'Group ' + str(k)` (utils.py line 202). -/
def groupName (k : Nat) : String :=
  "Group " ++ toString k

/-- The inner `for leftover in range(val+1, len(col_list), 1)` loop of
utils.py lines 213–222: pulls `cors[val][leftover]`, and when it exceeds the
threshold appends the column name `col_list[leftover]` to the current group's
member list. -/
def leftoverLoop {α : Type} (gtB : α → α → Bool) (cors : List (List α)) (t : α)
    (colList : List String) (gname : String) (val : Nat) :
    List Nat → List (String × List String) → Except PyErr (List (String × List String))
  | [], glwc => .ok glwc
  | leftover :: rest, glwc =>
    do
      let corsRow ← pyIdx cors val
      let correlationVal ← pyIdx corsRow leftover
      if gtB correlationVal t then
        do
          let stor ← pyIdx colList leftover
          leftoverLoop gtB cors t colList gname val rest (dictAppend glwc gname stor)
      else
        leftoverLoop gtB cors t colList gname val rest glwc

/-- The main `for col in col_list` loop of utils.py lines 191–222, one
recursive step per column.  `val` is the 0-based position of `col` (the code
initialises `val = -1` and increments at the top of each iteration, which is
the same sequence of values).  `group_cols` (lines 195–197) is the set of all
already-grouped column names; the code sorts it but only membership of `col`
is ever used, so we keep the plain union.  On a fresh column the code creates
group `'Group ' + str(group_label+1)`, stores `[col]` under that key, copies
the column's values into the grouped rows (lines 207–210, modelled with
`zipWith`: `group_vals` has exactly one value per grouped row), and runs the
leftover scan. -/
def groupStep {α : Type} (gtB : α → α → Bool) (data : List Row) (cors : List (List α))
    (t : α) (colList : List String) :
    List String → Nat → Nat → List (String × List String) →
    List (List (String × Option ℚ)) →
    Except PyErr (List (List (String × Option ℚ)) × List (String × List String))
  | [], _, _, glwc, dg => .ok (dg, glwc)
  | col :: rest, val, groupLabel, glwc, dg =>
    let groupCols := (glwc.map Prod.snd).flatten
    if col ∈ groupCols then
      groupStep gtB data cors t colList rest (val + 1) groupLabel glwc dg
    else
      do
        let gname := groupName (groupLabel + 1)
        let glwc1 := dictSet glwc gname [col]
        let groupVals ← colVals data val
        let dg1 := List.zipWith (fun r v => dictSet r gname (some v)) dg groupVals
        let glwc2 ← leftoverLoop gtB cors t colList gname val
          (List.range' (val + 1) (colList.length - (val + 1))) glwc1
        groupStep gtB data cors t colList rest (val + 1) (groupLabel + 1) glwc2 dg1

/-- `group_columns` (utils.py lines 155–224).  The grouped dataset rows are
initialised to `{'Group 1': []}` (line 188); the empty-list placeholder is
modelled as `none`, and actual column values as `some v` (whenever the
dataset has at least one column the placeholder is overwritten when column 0
founds `'Group 1'`).  `col_list = list(data[0].keys())` (line 190) raises
`IndexError` on an empty dataset. -/
def group_columns {α : Type} (gtB : α → α → Bool) (data : List Row)
    (cors : List (List α)) (t : α) :
    Except PyErr (List (List (String × Option ℚ)) × List (String × List String)) :=
  do
    let row0 ← pyIdx data 0
    let colList := row0.map Prod.fst
    groupStep gtB data cors t colList colList 0 0 [("Group 1", [])]
      (data.map fun _ => [("Group 1", (none : Option ℚ))])

/-- Instantiation of the float comparison at exact rationals. -/
def ratGT (x t : ℚ) : Bool :=
  decide (t < x)

/-- Instantiation of the float comparison at real numbers (for matrices
produced by `correlation_matrix`). -/
noncomputable def realGT (x t : ℝ) : Bool :=
  @decide (t < x) (Classical.propDecidable _)

/-- A float that is either NaN or an exact number: the value model used to
state the NaN-comparison behaviour of grouping. -/
inductive FVal where
  | nan : FVal
  | num : ℚ → FVal
deriving DecidableEq

/-- IEEE-754 `>` on `FVal`: every comparison involving NaN is false. -/
def fvalGT : FVal → FVal → Bool
  | .num a, .num b => decide (b < a)
  | _, _ => false

/-- Entry `(i, j)` of a matrix, `none` when out of range (specification
helper used to state properties of `group_columns`). -/
def entry {α : Type} (cors : List (List α)) (i j : Nat) : Option α :=
  cors[i]? >>= fun r => r[j]?

/-- Threshold comparison against an optional matrix entry (specification
helper): false when the entry is absent. -/
def gtOpt {α : Type} (gtB : α → α → Bool) (o : Option α) (t : α) : Bool :=
  match o with
  | some x => gtB x t
  | none => false

/-- The column names absorbed into the group founded at column index `r`
(specification helper): the names of the columns at indices `j > r` whose
correlation entry `cors[r][j]` exceeds the threshold. -/
def absorbedNames {α : Type} (gtB : α → α → Bool) (cors : List (List α)) (t : α)
    (colList : List String) (r : Nat) : List String :=
  ((List.range' (r + 1) (colList.length - (r + 1))).filter
    (fun j => gtOpt gtB (entry cors r j) t)).map (fun j => colList.getD j "")

/-! ## Concrete datasets and matrices used by the claims -/

/-- Scenario dataset of spec §8: `[{a:1,b:2,c:10}, {a:2,b:4,c:1}, {a:3,b:6,c:5}]`. -/
def dataA : List Row :=
  [[("a", 1), ("b", 2), ("c", 10)],
   [("a", 2), ("b", 4), ("c", 1)],
   [("a", 3), ("b", 6), ("c", 5)]]

/-- The correlation matrix of `dataA`, entrywise: column vectors are
`a = [1,2,3]`, `b = [2,4,6]`, `c = [10,1,5]`. -/
noncomputable def corsA : List (List ℝ) :=
  [[pearson [1, 2, 3] [1, 2, 3], pearson [1, 2, 3] [2, 4, 6], pearson [1, 2, 3] [10, 1, 5]],
   [pearson [2, 4, 6] [1, 2, 3], pearson [2, 4, 6] [2, 4, 6], pearson [2, 4, 6] [10, 1, 5]],
   [pearson [10, 1, 5] [1, 2, 3], pearson [10, 1, 5] [2, 4, 6], pearson [10, 1, 5] [10, 1, 5]]]

/-- One-row three-column dataset used for grouping counterexamples. -/
def dataABC : List Row := [[("a", 1), ("b", 2), ("c", 3)]]

/-- Matrix for the C1 counterexample (scaled by 100 so that every value is an
integer; only the order of entries against the threshold matters to
grouping): `cor(a,c)` and `cor(b,c)` above the threshold `50`, `cor(a,b)`
below it, so `c` is absorbed both into `a`'s group and into `b`'s group. -/
def corsDup : List (List ℚ) :=
  [[100, 0, 100], [0, 100, 100], [100, 100, 100]]

/-- Matrix for the C2 counterexample (scaled by 100):
`cor(a,b) = cor(b,c) = 95` above the threshold `90`, `cor(a,c) = 50` below
it. -/
def corsChain : List (List ℚ) :=
  [[100, 95, 50], [95, 100, 95], [50, 95, 100]]

/-- One-row four-column dataset for the C4 counterexample. -/
def dataABCD : List Row := [[("a", 1), ("b", 2), ("c", 3), ("d", 4)]]

/-- Matrix for the C4 counterexample (scaled by 100): at threshold `70`
column `b` absorbs `c` and `d` (2 groups); at the lower threshold `30`
column `a` absorbs `b`, which then never scans, leaving `c` and `d` as
singletons (3 groups). -/
def corsNonMono : List (List ℚ) :=
  [[100, 50, 0, 0], [50, 100, 80, 80], [0, 80, 100, 0], [0, 80, 0, 100]]

/-- Two rows with equal column counts but disjoint key sets: accepted
silently by `correlation_matrix`, which reads values positionally through
each row's own key list. -/
def dataMixedKeys : List Row := [[("a", 1), ("b", 2)], [("c", 3), ("d", 4)]]

/-- Two rows where the second has fewer columns than the first: the column
extraction indexes past the short row and raises `IndexError`. -/
def dataShortRow : List Row := [[("a", 1), ("b", 2)], [("c", 3)]]

/-- Two-column dataset used in witnesses. -/
def dataAB : List Row := [[("a", 1), ("b", 2)], [("a", 2), ("b", 4)]]

/-- Computable rational mirror of `corsA`: entrywise it makes the same
threshold decisions against `90` as `corsA` makes against thresholds between
`cor(a,c) ≈ -0.554` and `cor(a,b) = 1` (both `0.9` and `0.999999`), letting
the real-valued grouping run be evaluated exactly. -/
def corsAQ : List (List ℚ) :=
  [[100, 100, -55], [100, 100, -55], [-55, -55, 100]]

/-- Two-column `FVal` matrix whose off-diagonal entries are NaN (as produced
by a zero-variance column). -/
def corsNaN : List (List FVal) :=
  [[.num 1, .nan], [.nan, .num 1]]

/-- Numeric value of a decimal digit character. -/
def digitVal (c : Char) : Nat := c.toNat - 48

/-- Base-10 value of a list of digit characters (most significant first). -/
def valD : List Char → Nat
  | [] => 0
  | c :: cs => digitVal c * 10 ^ cs.length + valD cs

/-!
## Distinctness of group labels

The grouping loop keys its dictionary by `'Group ' + str(k)`; the proofs need
that distinct numbers give distinct labels, i.e. that `Nat.repr` is
injective.  We prove it by exhibiting a left inverse: the base-10 value of
the digit string. -/

theorem digitVal_digitChar (d : Nat) (h : d < 10) :
    digitVal (Nat.digitChar d) = d := by
  interval_cases d <;> rfl

theorem valD_toDigitsCore (fuel : Nat) :
    ∀ (n : Nat) (ds : List Char), n < fuel →
      valD (Nat.toDigitsCore 10 fuel n ds) = n * 10 ^ ds.length + valD ds := by
  induction fuel with
  | zero => exact fun n ds h => absurd h (Nat.not_lt_zero n)
  | succ fuel ih =>
    intro n ds h
    show valD (Nat.toDigitsCore 10 (fuel + 1) n ds) = _
    rw [Nat.toDigitsCore]
    by_cases h10 : n / 10 = 0
    · have hn : n < 10 := by
        rcases Nat.lt_or_ge n 10 with h' | h'
        · exact h'
        · exact absurd h10 (by have := Nat.one_le_div_iff (by norm_num : 0 < 10) |>.2 h'; omega)
      simp only [h10, if_pos]
      show digitVal (Nat.digitChar (n % 10)) * 10 ^ ds.length + valD ds = _
      rw [digitVal_digitChar _ (Nat.mod_lt _ (by norm_num)), Nat.mod_eq_of_lt hn]
    · have hpos : 0 < n := by
        rcases Nat.eq_zero_or_pos n with rfl | h'
        · exact absurd rfl h10
        · exact h'
      have hlt : n / 10 < fuel := by
        have h1 : n / 10 < n := Nat.div_lt_self hpos (by norm_num)
        omega
      simp only [h10, if_neg, ite_false]
      rw [ih (n / 10) (Nat.digitChar (n % 10) :: ds) hlt]
      show n / 10 * 10 ^ (ds.length + 1) +
        (digitVal (Nat.digitChar (n % 10)) * 10 ^ ds.length + valD ds) = _
      rw [digitVal_digitChar _ (Nat.mod_lt _ (by norm_num))]
      have hdm : 10 * (n / 10) + n % 10 = n := Nat.div_add_mod n 10
      calc n / 10 * 10 ^ (ds.length + 1) + (n % 10 * 10 ^ ds.length + valD ds)
          = (10 * (n / 10) + n % 10) * 10 ^ ds.length + valD ds := by ring
        _ = n * 10 ^ ds.length + valD ds := by rw [hdm]

theorem valD_toDigits (n : Nat) : valD (Nat.toDigits 10 n) = n := by
  have h := valD_toDigitsCore (n + 1) n [] (Nat.lt_succ_self n)
  simpa [Nat.toDigits, valD] using h

theorem natRepr_injective : Function.Injective Nat.repr := by
  intro m n h
  have hd : Nat.toDigits 10 m = Nat.toDigits 10 n := by
    have h2 := congrArg String.data h
    simpa [Nat.repr, List.asString] using h2
  have h3 := congrArg valD hd
  rwa [valD_toDigits, valD_toDigits] at h3

theorem groupName_injective : Function.Injective groupName := by
  intro a b h
  apply natRepr_injective
  have h2 := congrArg String.data h
  simp only [groupName, String.data_append] at h2
  exact congrArg List.asString (List.append_cancel_left h2) |> fun h3 => by
    have : (Nat.repr a).data = (Nat.repr b).data := List.append_cancel_left h2
    exact String.ext this

/-! ## Dictionary and loop lemmas -/

theorem ok_bind {ε α β : Type} (x : α) (f : α → Except ε β) :
    (Except.ok x >>= f) = f x := rfl

theorem error_bind {ε α β : Type} (e : ε) (f : α → Except ε β) :
    ((Except.error e : Except ε α) >>= f) = .error e := rfl

theorem pyIdx_ok_iff {α : Type} {l : List α} {i : Nat} {x : α} :
    pyIdx l i = .ok x ↔ l[i]? = some x := by
  cases h : l[i]? <;> simp [pyIdx, h]

theorem dictAppend_map_fst (d : List (String × List String)) (k x : String) :
    (dictAppend d k x).map Prod.fst = d.map Prod.fst := by
  induction d with
  | nil => rfl
  | cons p rest ih =>
    by_cases h : p.1 = k <;> simp [dictAppend, h, ih]

theorem map_if_not_mem {β : Type} (d : List (String × β)) (k : String)
    (f : String × β → String × β) (h : k ∉ d.map Prod.fst) :
    d.map (fun p => if p.1 = k then f p else p) = d := by
  induction d with
  | nil => rfl
  | cons p rest ih =>
    simp only [List.map_cons, List.mem_cons, not_or] at h
    have hne : ¬ p.1 = k := fun hx => h.1 (Eq.symm hx)
    simp only [List.map_cons, if_neg hne, ih h.2]

theorem dictAppend_eq_map (d : List (String × List String)) (k x : String)
    (h : (d.map Prod.fst).Nodup) :
    dictAppend d k x =
      d.map (fun p => if p.1 = k then (p.1, p.2 ++ [x]) else p) := by
  induction d with
  | nil => rfl
  | cons p rest ih =>
    simp only [List.map_cons, List.nodup_cons] at h
    by_cases hk : p.1 = k
    · simp only [dictAppend, if_pos hk, List.map_cons]
      rw [map_if_not_mem rest k _ (hk ▸ h.1)]
    · simp only [dictAppend, if_neg hk, List.map_cons, ih h.2]

theorem dictSet_eq_append {β : Type} (d : List (String × β)) (k : String) (v : β)
    (h : k ∉ d.map Prod.fst) :
    dictSet d k v = d ++ [(k, v)] := by
  induction d with
  | nil => rfl
  | cons p rest ih =>
    simp only [List.map_cons, List.mem_cons, not_or] at h
    have hne : ¬ p.1 = k := fun hx => h.1 (Eq.symm hx)
    simp only [dictSet, if_neg hne, List.cons_append, ih h.2]

/-- Characterisation of the leftover scan (utils.py lines 213–222) on any
state with duplicate-free keys: it appends to the entry at `gname` exactly
the names of the scanned columns whose correlation entry exceeds the
threshold, and leaves every other entry unchanged. -/
theorem leftoverLoop_ok {α : Type} (gtB : α → α → Bool) (cors : List (List α))
    (t : α) (colList : List String) (gname : String) (val : Nat) :
    ∀ (ls : List Nat) (glwc out : List (String × List String)),
      (glwc.map Prod.fst).Nodup →
      leftoverLoop gtB cors t colList gname val ls glwc = .ok out →
      out = glwc.map (fun p => if p.1 = gname then
        (p.1, p.2 ++ (ls.filter (fun j => gtOpt gtB (entry cors val j) t)).map
          (fun j => colList.getD j "")) else p) := by
  intro ls
  induction ls with
  | nil =>
    intro glwc out _ h
    simp only [leftoverLoop] at h
    cases h
    simp
  | cons leftover rest ih =>
    intro glwc out hnd h
    simp only [leftoverLoop] at h
    cases hrow : pyIdx cors val with
    | error e => rw [hrow, error_bind] at h; exact Except.noConfusion h
    | ok corsRow =>
      rw [hrow, ok_bind] at h
      cases hv : pyIdx corsRow leftover with
      | error e => rw [hv, error_bind] at h; exact Except.noConfusion h
      | ok v =>
        rw [hv, ok_bind] at h
        have hentry : entry cors val leftover = some v := by
          simp [entry, pyIdx_ok_iff.1 hrow, pyIdx_ok_iff.1 hv]
        by_cases hgt : gtB v t = true
        · rw [if_pos hgt] at h
          cases hstor : pyIdx colList leftover with
          | error e => rw [hstor, error_bind] at h; exact Except.noConfusion h
          | ok stor =>
            rw [hstor, ok_bind] at h
            have hnd2 : ((dictAppend glwc gname stor).map Prod.fst).Nodup := by
              rwa [dictAppend_map_fst]
            have hrec := ih (dictAppend glwc gname stor) out hnd2 h
            rw [hrec, dictAppend_eq_map _ _ _ hnd, List.map_map]
            have hfil : (leftover :: rest).filter
                (fun j => gtOpt gtB (entry cors val j) t) =
                leftover :: rest.filter (fun j => gtOpt gtB (entry cors val j) t) := by
              rw [List.filter_cons_of_pos (by simp [hentry, gtOpt, hgt])]
            rw [hfil]
            apply List.map_congr_left
            intro p _
            by_cases hp : p.1 = gname
            · simp [Function.comp, hp, List.append_assoc, pyIdx_ok_iff.1 hstor]
            · simp [Function.comp, hp]
        · rw [if_neg hgt] at h
          have hrec := ih glwc out hnd h
          rw [hrec]
          have hfil : (leftover :: rest).filter
              (fun j => gtOpt gtB (entry cors val j) t) =
              rest.filter (fun j => gtOpt gtB (entry cors val j) t) := by
            rw [List.filter_cons_of_neg (by simp [hentry, gtOpt, hgt])]
          rw [hfil]

theorem nodup_range'_one (s n : Nat) : (List.range' s n).Nodup := by
  induction n generalizing s with
  | zero => exact List.nodup_nil
  | succ n ih =>
    rw [List.range'_succ]
    refine List.nodup_cons.2 ⟨?_, ih (s + 1)⟩
    intro hmem
    rcases List.mem_range'.1 hmem with ⟨i, _, hi⟩
    omega

theorem groupName_not_mem_range (gl : Nat) :
    groupName (gl + 1) ∉ (List.range' 1 gl).map groupName := by
  intro hmem
  rcases List.mem_map.1 hmem with ⟨i, hi, hgn⟩
  rcases List.mem_range'.1 hi with ⟨i', hi', rfl⟩
  have := groupName_injective hgn
  omega

/-- Invariant of the main grouping loop: on entry to each iteration the group
dictionary holds the keys `'Group 1' … 'Group k'`, every completed group's
member list consists of a representative column followed by exactly the
columns its leftover scan absorbed, and every already-processed column
belongs to some group.  The conclusion instantiates this at the end of the
loop. -/
theorem groupStep_invariant {α : Type} (gtB : α → α → Bool) (data : List Row)
    (cors : List (List α)) (t : α) (colList : List String) :
    ∀ (rest : List String) (val gl : Nat)
      (glwc : List (String × List String)) (dg dgF : List (List (String × Option ℚ)))
      (glwcF : List (String × List String)),
      groupStep gtB data cors t colList rest val gl glwc dg = .ok (dgF, glwcF) →
      rest = colList.drop val →
      glwc.map Prod.fst = (List.range' 1 (max gl 1)).map groupName →
      (gl = 0 → glwc = [(groupName 1, [])]) →
      (∀ p ∈ glwc, p.2 = [] ∨ ∃ r, ∃ hr : r < colList.length,
        p.2 = colList.get ⟨r, hr⟩ :: absorbedNames gtB cors t colList r) →
      (∀ c ∈ colList.take val, ∃ p ∈ glwc, c ∈ p.2) →
      (∀ p ∈ glwcF, p.2 = [] ∨ ∃ r, ∃ hr : r < colList.length,
        p.2 = colList.get ⟨r, hr⟩ :: absorbedNames gtB cors t colList r)
      ∧ (∀ c ∈ colList, ∃ p ∈ glwcF, c ∈ p.2) := by
  intro rest
  induction rest with
  | nil =>
    intro val gl glwc dg dgF glwcF h hrest hkeys hgl0 hvals hcover
    simp only [groupStep] at h
    cases h
    have hlen : colList.length ≤ val := List.drop_eq_nil_iff.1 hrest.symm
    rw [List.take_of_length_le hlen] at hcover
    exact ⟨hvals, hcover⟩
  | cons col rest' ih =>
    intro val gl glwc dg dgF glwcF h hrest hkeys hgl0 hvals hcover
    have hval_lt : val < colList.length := by
      by_contra hge
      rw [List.drop_eq_nil_of_le (by omega)] at hrest
      exact List.noConfusion hrest
    have hdrop := List.drop_eq_getElem_cons hval_lt
    rw [hdrop] at hrest
    have hcol' : colList[val] = col := by
      injection hrest with h1 h2
      exact h1.symm
    have hrest' : rest' = colList.drop (val + 1) := by
      injection hrest with h1 h2
    have htake : colList.take (val + 1) = colList.take val ++ [col] := by
      rw [List.take_succ]
      simp [List.getElem?_eq_getElem hval_lt, hcol']
    simp only [groupStep] at h
    by_cases hmem : col ∈ (glwc.map Prod.snd).flatten
    · rw [if_pos hmem] at h
      apply ih (val + 1) gl glwc dg dgF glwcF h hrest' hkeys hgl0 hvals
      intro c hc
      rw [htake] at hc
      rcases List.mem_append.1 hc with hc | hc
      · exact hcover c hc
      · rcases List.mem_flatten.1 hmem with ⟨l, hl, hcl⟩
        rcases List.mem_map.1 hl with ⟨p, hp, rfl⟩
        have : c = col := List.mem_singleton.1 hc
        exact ⟨p, hp, this ▸ hcl⟩
    · rw [if_neg hmem] at h
      cases hgv : colVals data val with
      | error e => rw [hgv, error_bind] at h; exact Except.noConfusion h
      | ok groupVals =>
        rw [hgv, ok_bind] at h
        cases hloop : leftoverLoop gtB cors t colList (groupName (gl + 1)) val
            (List.range' (val + 1) (colList.length - (val + 1)))
            (dictSet glwc (groupName (gl + 1)) [col]) with
        | error e => rw [hloop, error_bind] at h; exact Except.noConfusion h
        | ok glwc2 =>
          rw [hloop, ok_bind] at h
          -- glwcKept: the part of glwc that survives the dictSet (at gl = 0
          -- the key 'Group 1' is overwritten, otherwise everything is kept)
          set glwcKept : List (String × List String) :=
            if gl = 0 then [] else glwc with hkept
          have hkeptKeys : glwcKept.map Prod.fst = (List.range' 1 gl).map groupName := by
            rcases Nat.eq_zero_or_pos gl with rfl | hpos
            · simp [hkept]
            · have hne : ¬ gl = 0 := by omega
              have hmax : max gl 1 = gl := by omega
              rw [hkept, if_neg hne]
              rw [hmax] at hkeys
              exact hkeys
          have hnotin : groupName (gl + 1) ∉ glwcKept.map Prod.fst := by
            rw [hkeptKeys]
            exact groupName_not_mem_range gl
          have hglwc1 : dictSet glwc (groupName (gl + 1)) [col] =
              glwcKept ++ [(groupName (gl + 1), [col])] := by
            rcases Nat.eq_zero_or_pos gl with rfl | hpos
            · rw [hgl0 rfl, hkept, if_pos rfl]
              simp [dictSet]
            · have hne : ¬ gl = 0 := by omega
              have hmax : max gl 1 = gl := by omega
              have hnotin2 : groupName (gl + 1) ∉ glwc.map Prod.fst := by
                rw [hmax] at hkeys
                rw [hkeys]
                exact groupName_not_mem_range gl
              rw [dictSet_eq_append _ _ _ hnotin2, hkept, if_neg hne]
          have hkeys1 : (dictSet glwc (groupName (gl + 1)) [col]).map Prod.fst =
              (List.range' 1 (gl + 1)).map groupName := by
            rw [hglwc1, List.map_append, hkeptKeys, List.range'_1_concat,
              List.map_append]
            simp [Nat.add_comm]
          have hnd1 : ((dictSet glwc (groupName (gl + 1)) [col]).map Prod.fst).Nodup := by
            rw [hkeys1]
            exact (nodup_range'_one 1 (gl + 1)).map groupName_injective
          have hglwc2 := leftoverLoop_ok gtB cors t colList (groupName (gl + 1)) val
            _ _ _ hnd1 hloop
          -- compute glwc2 explicitly
          have hglwc2' : glwc2 =
              glwcKept ++
                [(groupName (gl + 1),
                  colList.get ⟨val, hval_lt⟩ :: absorbedNames gtB cors t colList val)] := by
            rw [hglwc2, hglwc1, List.map_append]
            congr 1
            · exact map_if_not_mem _ _ _ hnotin
            · have hget : colList.get ⟨val, hval_lt⟩ = col := hcol'
              simp only [List.map_cons, List.map_nil, if_pos rfl, hget]
              rfl
          apply ih (val + 1) (gl + 1) glwc2 _ dgF glwcF h hrest'
          · rw [hglwc2', List.map_append, hkeptKeys]
            have hmax2 : max (gl + 1) 1 = gl + 1 := by omega
            rw [hmax2, List.range'_1_concat, List.map_append]
            simp [Nat.add_comm]
          · intro hcontra
            exact absurd hcontra (Nat.succ_ne_zero gl)
          · intro p hp
            rw [hglwc2'] at hp
            rcases List.mem_append.1 hp with hp | hp
            · have hpglwc : p ∈ glwc := by
                rcases Nat.eq_zero_or_pos gl with rfl | hpos
                · rw [hkept, if_pos rfl] at hp
                  exact absurd hp (List.not_mem_nil p)
                · have hne : ¬ gl = 0 := by omega
                  rwa [hkept, if_neg hne] at hp
              exact hvals p hpglwc
            · have hpeq := List.mem_singleton.1 hp
              right
              exact ⟨val, hval_lt, by rw [hpeq]⟩
          · intro c hc
            rw [htake] at hc
            rcases List.mem_append.1 hc with hc | hc
            · rcases hcover c hc with ⟨p, hp, hcp⟩
              rcases Nat.eq_zero_or_pos gl with rfl | hpos
              · rw [hgl0 rfl] at hp
                have hpeq := List.mem_singleton.1 hp
                rw [hpeq] at hcp
                exact absurd hcp (List.not_mem_nil c)
              · have hne : ¬ gl = 0 := by omega
                refine ⟨p, ?_, hcp⟩
                rw [hglwc2', hkept, if_neg hne]
                exact List.mem_append_left _ hp
            · have hceq : c = col := List.mem_singleton.1 hc
              refine ⟨(groupName (gl + 1),
                colList.get ⟨val, hval_lt⟩ :: absorbedNames gtB cors t colList val), ?_, ?_⟩
              · rw [hglwc2']
                exact List.mem_append_right _ (List.mem_singleton.2 rfl)
              · rw [hceq]
                have hget : colList.get ⟨val, hval_lt⟩ = col := hcol'
                rw [hget]
                exact List.mem_cons_self _ _

theorem groupName_one : groupName 1 = "Group 1" := rfl

/-- Structure of a successful `group_columns` run: every group in the
returned assignment is (the untouched initial empty group or) a
representative column followed by exactly the columns whose correlation with
the representative exceeds the threshold, and every column of the dataset
belongs to at least one group. -/
theorem group_columns_structure {α : Type} (gtB : α → α → Bool) (data : List Row)
    (cors : List (List α)) (t : α) (row0 : Row)
    (dgF : List (List (String × Option ℚ))) (glwcF : List (String × List String))
    (h : group_columns gtB data cors t = .ok (dgF, glwcF))
    (h0 : data[0]? = some row0) :
    (∀ p ∈ glwcF, p.2 = [] ∨ ∃ r, ∃ hr : r < (row0.map Prod.fst).length,
      p.2 = (row0.map Prod.fst).get ⟨r, hr⟩ ::
        absorbedNames gtB cors t (row0.map Prod.fst) r)
    ∧ (∀ c ∈ row0.map Prod.fst, ∃ p ∈ glwcF, c ∈ p.2) := by
  simp only [group_columns] at h
  rw [(pyIdx_ok_iff.2 h0 : pyIdx data 0 = .ok row0), ok_bind] at h
  refine groupStep_invariant gtB data cors t _ _ 0 0 _ _ _ _ h ?_ ?_ ?_ ?_ ?_
  · exact (List.drop_zero _).symm
  · simp [groupName_one]
  · intro _
    rw [groupName_one]
  · intro p hp
    rw [List.mem_singleton.1 hp]
    exact Or.inl rfl
  · simp

/-- A column whose correlation entry against a representative does not exceed
the threshold is never a member of that representative's group. -/
theorem rep_group_not_absorbed {α : Type} (gtB : α → α → Bool) (data : List Row)
    (cors : List (List α)) (t : α) (row0 : Row)
    (dgF : List (List (String × Option ℚ))) (glwcF : List (String × List String))
    (h : group_columns gtB data cors t = .ok (dgF, glwcF))
    (h0 : data[0]? = some row0)
    (hnd : (row0.map Prod.fst).Nodup)
    (i k : Nat) (hik : i ≠ k) (hi : i < (row0.map Prod.fst).length)
    (hk : k < (row0.map Prod.fst).length)
    (hgt : gtOpt gtB (entry cors i k) t = false)
    (p : String × List String) (hp : p ∈ glwcF)
    (hhead : p.2.head? = some ((row0.map Prod.fst).get ⟨i, hi⟩)) :
    (row0.map Prod.fst).get ⟨k, hk⟩ ∉ p.2 := by
  set colList := row0.map Prod.fst with hcolList
  rcases (group_columns_structure gtB data cors t row0 dgF glwcF h h0).1 p hp with
    hnil | ⟨r, hr, hstruct⟩
  · rw [hnil] at hhead
    exact absurd hhead (by simp)
  · rw [hstruct] at hhead
    simp only [List.head?_cons, Option.some.injEq] at hhead
    have hri : r = i := by
      have := (hnd.get_inj_iff).1 hhead
      exact Fin.mk.injEq _ _ _ _ ▸ this
    subst hri
    rw [hstruct]
    intro hmem
    rcases List.mem_cons.1 hmem with heq | habs
    · have : k = r := by
        have := (hnd.get_inj_iff).1 heq
        simpa using this
      omega
    · rcases List.mem_map.1 habs with ⟨j, hj, hjeq⟩
      have hjr := List.mem_filter.1 hj
      rcases List.mem_range'.1 hjr.1 with ⟨j', hj', hjval⟩
      have hlen : (List.map Prod.fst row0).length = colList.length := by
        rw [hcolList]
      have hjlt : j < colList.length := by omega
      have hjD : colList.getD j "" = colList.get ⟨j, hjlt⟩ := by
        rw [List.getD_eq_getElem?_getD, List.getElem?_eq_getElem hjlt]
        rfl
      rw [hjD] at hjeq
      have hjk : j = k := by
        have := (hnd.get_inj_iff).1 hjeq
        simpa using this
      subst hjk
      rw [hjr.2] at hgt
      exact Bool.noConfusion hgt

theorem pyIdx_eq_ok {α : Type} {l : List α} {i : Nat} {x : α} (h : l[i]? = some x) :
    pyIdx l i = .ok x :=
  pyIdx_ok_iff.2 h

theorem pyIdx_eq_error {α : Type} {l : List α} {i : Nat} (h : l[i]? = none) :
    pyIdx l i = .error .indexError := by
  simp [pyIdx, h]

/-- The leftover scan reads the matrix only at entries `(val, j)` with
`j > val`: two matrices of the same shape whose strictly-upper entries give
the same threshold decisions drive the scan identically.  Stated
heterogeneously (possibly different entry types and comparison functions) so
that a real-valued correlation matrix can be exchanged for a computable
rational mirror. -/
theorem leftoverLoop_congr {α β : Type} (gt₁ : α → α → Bool) (gt₂ : β → β → Bool)
    (cors₁ : List (List α)) (cors₂ : List (List β)) (t₁ : α) (t₂ : β)
    (colList : List String) (gname : String) (val : Nat)
    (hrows : ∀ i : Nat, (cors₁[i]?).map List.length = (cors₂[i]?).map List.length)
    (hgt : ∀ i j, i < j →
      (entry cors₁ i j).map (gt₁ · t₁) = (entry cors₂ i j).map (gt₂ · t₂)) :
    ∀ (ls : List Nat), (∀ j ∈ ls, val < j) → ∀ glwc,
      leftoverLoop gt₁ cors₁ t₁ colList gname val ls glwc =
      leftoverLoop gt₂ cors₂ t₂ colList gname val ls glwc := by
  intro ls
  induction ls with
  | nil => intro _ glwc; rfl
  | cons leftover rest ih =>
    intro hmem glwc
    simp only [leftoverLoop]
    cases h1 : cors₁[val]? with
    | none =>
      have h2 : cors₂[val]? = none := by
        have := hrows val
        rw [h1] at this
        exact Option.map_eq_none'.1 this.symm
      rw [pyIdx_eq_error h1, pyIdx_eq_error h2, error_bind, error_bind]
    | some r₁ =>
      have h2 : ∃ r₂, cors₂[val]? = some r₂ ∧ r₂.length = r₁.length := by
        have := hrows val
        rw [h1] at this
        rcases Option.map_eq_some'.1 this.symm with ⟨r₂, hr₂, hlen⟩
        exact ⟨r₂, hr₂, hlen⟩
      rcases h2 with ⟨r₂, hr₂, hlen⟩
      rw [pyIdx_eq_ok h1, pyIdx_eq_ok hr₂, ok_bind, ok_bind]
      cases h3 : r₁[leftover]? with
      | none =>
        have h4 : r₂[leftover]? = none := by
          rw [List.getElem?_eq_none_iff] at h3 ⊢
          omega
        rw [pyIdx_eq_error h3, pyIdx_eq_error h4, error_bind, error_bind]
      | some v₁ =>
        have hlt1 : leftover < r₁.length := by
          rcases List.getElem?_eq_some_iff.1 h3 with ⟨hl, _⟩
          exact hl
        have hlt : leftover < r₂.length := by omega
        have h4 : r₂[leftover]? = some r₂[leftover] := List.getElem?_eq_getElem hlt
        have he1 : entry cors₁ val leftover = some v₁ := by
          simp [entry, h1, h3]
        have he2 : entry cors₂ val leftover = some r₂[leftover] := by
          simp [entry, hr₂, h4]
        have hgtv : gt₁ v₁ t₁ = gt₂ r₂[leftover] t₂ := by
          have hg := hgt val leftover (hmem leftover (List.mem_cons_self _ _))
          rw [he1, he2, Option.map_some', Option.map_some'] at hg
          injection hg
        rw [pyIdx_eq_ok h3, pyIdx_eq_ok h4, ok_bind, ok_bind, ← hgtv]
        have hmem' : ∀ j ∈ rest, val < j := fun j hj => hmem j (List.mem_cons_of_mem _ hj)
        cases hb : gt₁ v₁ t₁
        · rw [if_neg (by simp [hb]), if_neg (by simp [hb])]
          exact ih hmem' glwc
        · rw [if_pos (by simp [hb]), if_pos (by simp [hb])]
          cases hs : pyIdx colList leftover with
          | error e => rw [error_bind, error_bind]
          | ok stor =>
            rw [ok_bind, ok_bind]
            exact ih hmem' _

/-- The main loop reads the matrix only through the leftover scans, hence
only at strictly-upper entries. -/
theorem groupStep_congr {α β : Type} (gt₁ : α → α → Bool) (gt₂ : β → β → Bool)
    (data : List Row) (cors₁ : List (List α)) (cors₂ : List (List β)) (t₁ : α) (t₂ : β)
    (colList : List String)
    (hrows : ∀ i : Nat, (cors₁[i]?).map List.length = (cors₂[i]?).map List.length)
    (hgt : ∀ i j, i < j →
      (entry cors₁ i j).map (gt₁ · t₁) = (entry cors₂ i j).map (gt₂ · t₂)) :
    ∀ (rest : List String) (val gl : Nat) (glwc : List (String × List String))
      (dg : List (List (String × Option ℚ))),
      groupStep gt₁ data cors₁ t₁ colList rest val gl glwc dg =
      groupStep gt₂ data cors₂ t₂ colList rest val gl glwc dg := by
  intro rest
  induction rest with
  | nil => intro val gl glwc dg; rfl
  | cons col rest' ih =>
    intro val gl glwc dg
    simp only [groupStep]
    by_cases hmem : col ∈ (glwc.map Prod.snd).flatten
    · rw [if_pos hmem, if_pos hmem]
      exact ih (val + 1) gl glwc dg
    · rw [if_neg hmem, if_neg hmem]
      cases hgv : colVals data val with
      | error e => rw [error_bind, error_bind]
      | ok groupVals =>
        rw [ok_bind, ok_bind]
        have hloops := leftoverLoop_congr gt₁ gt₂ cors₁ cors₂ t₁ t₂ colList
          (groupName (gl + 1)) val hrows hgt
          (List.range' (val + 1) (colList.length - (val + 1)))
          (by
            intro j hj
            rcases List.mem_range'.1 hj with ⟨i, hi, rfl⟩
            omega)
          (dictSet glwc (groupName (gl + 1)) [col])
        rw [hloops]
        cases hloop : leftoverLoop gt₂ cors₂ t₂ colList (groupName (gl + 1)) val
            (List.range' (val + 1) (colList.length - (val + 1)))
            (dictSet glwc (groupName (gl + 1)) [col]) with
        | error e => rw [error_bind, error_bind]
        | ok glwc2 =>
          rw [ok_bind, ok_bind]
          exact ih (val + 1) (gl + 1) glwc2 _

/-- `group_columns` reads the correlation matrix only at strictly-upper
entries, and only through the threshold comparison. -/
theorem group_columns_congr {α β : Type} (gt₁ : α → α → Bool) (gt₂ : β → β → Bool)
    (data : List Row) (cors₁ : List (List α)) (cors₂ : List (List β)) (t₁ : α) (t₂ : β)
    (hrows : ∀ i : Nat, (cors₁[i]?).map List.length = (cors₂[i]?).map List.length)
    (hgt : ∀ i j, i < j →
      (entry cors₁ i j).map (gt₁ · t₁) = (entry cors₂ i j).map (gt₂ · t₂)) :
    group_columns gt₁ data cors₁ t₁ = group_columns gt₂ data cors₂ t₂ := by
  simp only [group_columns]
  cases h0 : pyIdx data 0 with
  | error e => rw [error_bind, error_bind]
  | ok row0 =>
    rw [ok_bind, ok_bind]
    exact groupStep_congr gt₁ gt₂ data cors₁ cors₂ t₁ t₂ _ hrows hgt _ 0 0 _ _

/-! ## Pearson coefficient values and symmetry -/

theorem realGT_true {x t : ℝ} (h : t < x) : realGT x t = true :=
  decide_eq_true h

theorem realGT_false {x t : ℝ} (h : ¬ t < x) : realGT x t = false :=
  decide_eq_false h

theorem pearson_ab : pearson [1, 2, 3] [2, 4, 6] = 1 := by
  unfold pearson
  norm_num [center, dotSum, List.zip, List.zipWith, List.sum_cons, List.sum_nil]
  rw [show (16 : ℝ) = 4 ^ 2 by norm_num, Real.sqrt_sq (by norm_num : (0:ℝ) ≤ 4)]
  norm_num

theorem pearson_ac_neg : pearson [1, 2, 3] [10, 1, 5] < 0 := by
  unfold pearson
  norm_num [center, dotSum, List.zip, List.zipWith, List.sum_cons, List.sum_nil]
  have hpos : (0:ℝ) < Real.sqrt 244 / Real.sqrt 3 := by positivity
  exact div_neg_of_neg_of_pos (by norm_num) hpos

theorem pearson_bc_neg : pearson [2, 4, 6] [10, 1, 5] < 0 := by
  unfold pearson
  norm_num [center, dotSum, List.zip, List.zipWith, List.sum_cons, List.sum_nil]
  have hpos : (0:ℝ) < Real.sqrt 976 / Real.sqrt 3 := by positivity
  exact div_neg_of_neg_of_pos (by norm_num) hpos

theorem pearson_13_13 : pearson [1, 3] [1, 3] = 1 := by
  unfold pearson
  norm_num [center, dotSum, List.zip, List.zipWith, List.sum_cons, List.sum_nil]
  rw [show (4 : ℝ) = 2 ^ 2 by norm_num, Real.sqrt_sq (by norm_num : (0:ℝ) ≤ 2)]
  norm_num

theorem pearson_13_24 : pearson [1, 3] [2, 4] = 1 := by
  unfold pearson
  norm_num [center, dotSum, List.zip, List.zipWith, List.sum_cons, List.sum_nil]
  rw [show (4 : ℝ) = 2 ^ 2 by norm_num, Real.sqrt_sq (by norm_num : (0:ℝ) ≤ 2)]
  norm_num

theorem pearson_24_24 : pearson [2, 4] [2, 4] = 1 := by
  unfold pearson
  norm_num [center, dotSum, List.zip, List.zipWith, List.sum_cons, List.sum_nil]
  rw [show (4 : ℝ) = 2 ^ 2 by norm_num, Real.sqrt_sq (by norm_num : (0:ℝ) ≤ 2)]
  norm_num

theorem dotSum_comm (x y : List ℚ) : dotSum x y = dotSum y x := by
  induction x generalizing y with
  | nil => cases y <;> rfl
  | cons a x ih =>
    cases y with
    | nil => rfl
    | cons b y =>
      simp only [dotSum, List.zip_cons_cons, List.map_cons, List.sum_cons] at *
      rw [mul_comm, ih y]

theorem pearson_comm (x y : List ℚ) : pearson x y = pearson y x := by
  unfold pearson
  rw [dotSum_comm (center x) (center y), mul_comm (dotSum (center x) (center x))]

theorem pearson_24_13 : pearson [2, 4] [1, 3] = 1 := by
  rw [pearson_comm]
  exact pearson_13_24

/-- Rows of a successful `corMat` run: row `k` is the `corRow` of the `k`-th
requested column index. -/
theorem corMat_ok (data : List Row) (n : Nat) :
    ∀ (is : List Nat) (M : List (List ℝ)), corMat data n is = .ok M →
      M.length = is.length ∧
      ∀ k : Nat, ∀ hk : k < is.length, ∃ r, corRow data (is.get ⟨k, hk⟩) (List.range n) = .ok r ∧
        M[k]? = some r := by
  intro is
  induction is with
  | nil =>
    intro M h
    simp only [corMat] at h
    cases h
    exact ⟨rfl, fun k hk => absurd hk (by simp at hk)⟩
  | cons i is ih =>
    intro M h
    simp only [corMat] at h
    cases hr : corRow data i (List.range n) with
    | error e => rw [hr, error_bind] at h; exact Except.noConfusion h
    | ok r =>
      rw [hr, ok_bind] at h
      cases hrest : corMat data n is with
      | error e => rw [hrest, error_bind] at h; exact Except.noConfusion h
      | ok M' =>
        rw [hrest, ok_bind] at h
        cases h
        rcases ih M' hrest with ⟨hlen, hrows⟩
        refine ⟨by simp [hlen], ?_⟩
        intro k hk
        cases k with
        | zero => exact ⟨r, hr, by simp⟩
        | succ k =>
          rcases hrows k (by simpa using hk) with ⟨r', hr', hM'⟩
          exact ⟨r', hr', by simpa using hM'⟩

/-- Entries of a successful `corRow` run: entry `k` is the Pearson
coefficient of column `i` against the `k`-th requested column index. -/
theorem corRow_ok (data : List Row) (i : Nat) :
    ∀ (js : List Nat) (r : List ℝ), corRow data i js = .ok r →
      r.length = js.length ∧
      ∀ k : Nat, ∀ hk : k < js.length, ∃ x y, colVals data i = .ok x ∧
        colVals data (js.get ⟨k, hk⟩) = .ok y ∧ r[k]? = some (pearson x y) := by
  intro js
  induction js with
  | nil =>
    intro r h
    simp only [corRow] at h
    cases h
    exact ⟨rfl, fun k hk => absurd hk (by simp at hk)⟩
  | cons j js ih =>
    intro r h
    simp only [corRow] at h
    cases hx : colVals data i with
    | error e => rw [hx, error_bind] at h; exact Except.noConfusion h
    | ok x =>
      rw [hx, ok_bind] at h
      cases hy : colVals data j with
      | error e => rw [hy, error_bind] at h; exact Except.noConfusion h
      | ok y =>
        rw [hy, ok_bind] at h
        cases hrest : corRow data i js with
        | error e => rw [hrest, error_bind] at h; exact Except.noConfusion h
        | ok r' =>
          rw [hrest, ok_bind] at h
          cases h
          rcases ih r' hrest with ⟨hlen, hentries⟩
          refine ⟨by simp [hlen], ?_⟩
          intro k hk
          cases k with
          | zero => exact ⟨x, y, rfl, hy, by simp⟩
          | succ k =>
            rcases hentries k (by simpa using hk) with ⟨x', y', hx', hy', hr'⟩
            rw [hx] at hx'
            injection hx' with hxx
            subst hxx
            exact ⟨x, y', rfl, hy', by simpa using hr'⟩

/-- Entry `(i, j)` of a successful `correlation_matrix` run, for in-range
indices: the Pearson coefficient of columns `i` and `j`. -/
theorem correlation_matrix_entry (data : List Row) (row0 : Row) (M : List (List ℝ))
    (h : corMat data row0.length (List.range row0.length) = .ok M)
    (i j : Nat) (hi : i < row0.length) (hj : j < row0.length) :
    ∃ x y, colVals data i = .ok x ∧ colVals data j = .ok y ∧
      entry M i j = some (pearson x y) := by
  rcases corMat_ok data row0.length (List.range row0.length) M h with ⟨hMlen, hMrows⟩
  have hilt : i < (List.range row0.length).length := by simpa using hi
  rcases hMrows i hilt with ⟨r, hr, hMi⟩
  rw [List.get_range] at hr
  rcases corRow_ok data i (List.range row0.length) r hr with ⟨hrlen, hentries⟩
  have hjlt : j < (List.range row0.length).length := by simpa using hj
  rcases hentries j hjlt with ⟨x, y, hx, hy, hrj⟩
  rw [List.get_range] at hy
  exact ⟨x, y, hx, hy, by simp [entry, hMi, hrj]⟩

/-- Rows of a successful `correlation_matrix` run all have length equal to
the column count, and the matrix has one row per column. -/
theorem correlation_matrix_shape (data : List Row) (row0 : Row) (M : List (List ℝ))
    (h : corMat data row0.length (List.range row0.length) = .ok M) :
    M.length = row0.length ∧ ∀ r ∈ M, r.length = row0.length := by
  rcases corMat_ok data row0.length (List.range row0.length) M h with ⟨hMlen, hMrows⟩
  rw [List.length_range] at hMlen
  refine ⟨hMlen, ?_⟩
  intro r hrM
  rcases List.mem_iff_getElem.1 hrM with ⟨k, hk, hke⟩
  have hklt : k < (List.range row0.length).length := by
    rw [List.length_range]
    omega
  rcases hMrows k hklt with ⟨r', hr', hMk⟩
  rw [List.getElem?_eq_getElem hk, hke] at hMk
  injection hMk with hrr
  subst hrr
  rcases corRow_ok data _ _ _ hr' with ⟨hrlen, _⟩
  simpa using hrlen

/-- Symmetry of every matrix produced by `correlation_matrix`: the `(i, j)`
entry is the Pearson coefficient of column vectors `i` and `j`, which is
symmetric in its arguments; out-of-range entries are `none` on both sides
because the matrix is square. -/
theorem correlation_matrix_symm (data : List Row) (M : List (List ℝ))
    (h : correlation_matrix data = .ok M) :
    ∀ i j : Nat, entry M i j = entry M j i := by
  simp only [correlation_matrix] at h
  cases h0 : pyIdx data 0 with
  | error e => rw [h0, error_bind] at h; exact Except.noConfusion h
  | ok row0 =>
    rw [h0, ok_bind] at h
    rcases correlation_matrix_shape data row0 M h with ⟨hMlen, hMrows⟩
    intro i j
    by_cases hi : i < row0.length
    · by_cases hj : j < row0.length
      · rcases correlation_matrix_entry data row0 M h i j hi hj with
          ⟨x, y, hx, hy, hij⟩
        rcases correlation_matrix_entry data row0 M h j i hj hi with
          ⟨y', x', hy', hx', hji⟩
        rw [hx] at hx'
        injection hx' with hxe
        rw [hy] at hy'
        injection hy' with hye
        rw [hij, hji, ← hxe, ← hye, pearson_comm]
      · have hMj : M[j]? = none := by
          rw [List.getElem?_eq_none_iff]
          omega
        have hrowj : entry M i j = none := by
          have hilt : i < M.length := by omega
          have hMi : M[i]? = some M[i] := List.getElem?_eq_getElem hilt
          have hlenMi : M[i].length = row0.length :=
            hMrows _ (List.getElem_mem hilt)
          simp only [entry, hMi]
          show (M[i])[j]? = none
          rw [List.getElem?_eq_none_iff]
          omega
        rw [hrowj]
        simp [entry, hMj]
    · have hMi : M[i]? = none := by
        rw [List.getElem?_eq_none_iff]
        omega
      by_cases hj : j < row0.length
      · have hrowi : entry M j i = none := by
          have hjlt : j < M.length := by omega
          have hMj : M[j]? = some M[j] := List.getElem?_eq_getElem hjlt
          have hlenMj : M[j].length = row0.length :=
            hMrows _ (List.getElem_mem hjlt)
          simp only [entry, hMj]
          show (M[j])[i]? = none
          rw [List.getElem?_eq_none_iff]
          omega
        rw [hrowi]
        simp [entry, hMi]
      · have hMj : M[j]? = none := by
          rw [List.getElem?_eq_none_iff]
          omega
        simp [entry, hMi, hMj]

theorem fvalGT_nan (t : FVal) : fvalGT .nan t = false := by
  cases t <;> rfl

/-- Shape agreement of `corsA` and its rational mirror. -/
theorem corsA_shape :
    ∀ i : Nat, (corsA[i]?).map List.length = (corsAQ[i]?).map List.length := by
  intro i
  match i with
  | 0 => rfl
  | 1 => rfl
  | 2 => rfl
  | i + 3 => rfl

/-- Threshold decisions of `corsA` against `0.9` agree entrywise (above the
diagonal) with those of the rational mirror against `90`. -/
theorem corsA_decisions_nine_tenths : ∀ i j : Nat, i < j →
    (entry corsA i j).map (fun x => realGT x (9/10)) =
    (entry corsAQ i j).map (fun x => ratGT x 90) := by
  intro i j hij
  match i, j with
  | 0, 1 =>
    have h1 : realGT (pearson [1, 2, 3] [2, 4, 6]) (9/10) = true :=
      realGT_true (by rw [pearson_ab]; norm_num)
    show some (realGT (pearson [1, 2, 3] [2, 4, 6]) (9/10)) = some (ratGT 100 90)
    rw [h1]
    rfl
  | 0, 2 =>
    have h1 : realGT (pearson [1, 2, 3] [10, 1, 5]) (9/10) = false :=
      realGT_false (by intro hlt; nlinarith [pearson_ac_neg])
    show some (realGT (pearson [1, 2, 3] [10, 1, 5]) (9/10)) = some (ratGT (-55) 90)
    rw [h1]
    rfl
  | 1, 2 =>
    have h1 : realGT (pearson [2, 4, 6] [10, 1, 5]) (9/10) = false :=
      realGT_false (by intro hlt; nlinarith [pearson_bc_neg])
    show some (realGT (pearson [2, 4, 6] [10, 1, 5]) (9/10)) = some (ratGT (-55) 90)
    rw [h1]
    rfl
  | 0, 0 => exact absurd hij (by omega)
  | 1, 0 => exact absurd hij (by omega)
  | 1, 1 => exact absurd hij (by omega)
  | 2, 0 => exact absurd hij (by omega)
  | 2, 1 => exact absurd hij (by omega)
  | 2, 2 => exact absurd hij (by omega)
  | 0, j + 3 => rfl
  | 1, j + 3 => rfl
  | 2, j + 3 => rfl
  | i + 3, j => rfl

/-- Threshold decisions of `corsA` against `0.999999` also agree entrywise
with those of the rational mirror against `90`: the only pair above both
thresholds is `(a, b)` with correlation exactly `1`. -/
theorem corsA_decisions_strict : ∀ i j : Nat, i < j →
    (entry corsA i j).map (fun x => realGT x (999999/1000000)) =
    (entry corsAQ i j).map (fun x => ratGT x 90) := by
  intro i j hij
  match i, j with
  | 0, 1 =>
    have h1 : realGT (pearson [1, 2, 3] [2, 4, 6]) (999999/1000000) = true :=
      realGT_true (by rw [pearson_ab]; norm_num)
    show some (realGT (pearson [1, 2, 3] [2, 4, 6]) (999999/1000000)) =
      some (ratGT 100 90)
    rw [h1]
    rfl
  | 0, 2 =>
    have h1 : realGT (pearson [1, 2, 3] [10, 1, 5]) (999999/1000000) = false :=
      realGT_false (by intro hlt; nlinarith [pearson_ac_neg])
    show some (realGT (pearson [1, 2, 3] [10, 1, 5]) (999999/1000000)) =
      some (ratGT (-55) 90)
    rw [h1]
    rfl
  | 1, 2 =>
    have h1 : realGT (pearson [2, 4, 6] [10, 1, 5]) (999999/1000000) = false :=
      realGT_false (by intro hlt; nlinarith [pearson_bc_neg])
    show some (realGT (pearson [2, 4, 6] [10, 1, 5]) (999999/1000000)) =
      some (ratGT (-55) 90)
    rw [h1]
    rfl
  | 0, 0 => exact absurd hij (by omega)
  | 1, 0 => exact absurd hij (by omega)
  | 1, 1 => exact absurd hij (by omega)
  | 2, 0 => exact absurd hij (by omega)
  | 2, 1 => exact absurd hij (by omega)
  | 2, 2 => exact absurd hij (by omega)
  | 0, j + 3 => rfl
  | 1, j + 3 => rfl
  | 2, j + 3 => rfl
  | i + 3, j => rfl

/-! ## Claims -/

/-- C1 (counterexample): the GroupAssignment is not always a partition.  On
the one-row dataset with columns `a, b, c` and a matrix where `a`–`c` and
`b`–`c` are above the threshold but `a`–`b` is not, column `c` is absorbed
both into `a`'s group and into `b`'s group, so it occurs twice in the union
of the member lists. -/
theorem C1_counterexample :
    (group_columns ratGT dataABC corsDup 50).map
      (fun p => ((p.2.map Prod.snd).flatten.count "c", p.2.map Prod.snd)) =
      .ok (2, [["a", "c"], ["b", "c"]]) := by
  rfl

/-- C1 (amended): on every successful run the union of the group member
lists covers every original column name and contains nothing but original
column names — but a name may occur in more than one group (the duplicate
absorption of the counterexample), so the result is a cover, not a
partition. -/
theorem C1_cover {α : Type} (gtB : α → α → Bool) (data : List Row)
    (cors : List (List α)) (t : α) (row0 : Row)
    (dg : List (List (String × Option ℚ))) (glwc : List (String × List String))
    (h : group_columns gtB data cors t = .ok (dg, glwc))
    (h0 : data[0]? = some row0) :
    (∀ c ∈ row0.map Prod.fst, ∃ p ∈ glwc, c ∈ p.2) ∧
    (∀ p ∈ glwc, ∀ c ∈ p.2, c ∈ row0.map Prod.fst) := by
  rcases group_columns_structure gtB data cors t row0 dg glwc h h0 with ⟨hstruct, hcover⟩
  refine ⟨hcover, ?_⟩
  intro p hp c hc
  rcases hstruct p hp with hnil | ⟨r, hr, hmembers⟩
  · rw [hnil] at hc
    exact absurd hc (List.not_mem_nil c)
  · rw [hmembers] at hc
    rcases List.mem_cons.1 hc with rfl | habs
    · exact List.get_mem _ r hr
    · rcases List.mem_map.1 habs with ⟨j, hj, hjeq⟩
      have hjr := List.mem_filter.1 hj
      rcases List.mem_range'.1 hjr.1 with ⟨j', hj', hjval⟩
      have hjlt : j < (row0.map Prod.fst).length := by omega
      rw [← hjeq, List.getD_eq_getElem?_getD, List.getElem?_eq_getElem hjlt]
      exact List.getElem_mem hjlt

/-- C1 (witness): a concrete successful run on the three-column dataset, and
an application of the cover theorem showing a member name is an original
column. -/
theorem C1_cover_witness :
    group_columns ratGT dataABC corsDup 50 =
      .ok ([[("Group 1", some 1), ("Group 2", some 2)]],
           [("Group 1", ["a", "c"]), ("Group 2", ["b", "c"])]) ∧
    "b" ∈ ["a", "b", "c"] :=
  ⟨rfl,
    (C1_cover ratGT dataABC corsDup 50 [("a", 1), ("b", 2), ("c", 3)]
      [[("Group 1", some 1), ("Group 2", some 2)]]
      [("Group 1", ["a", "c"]), ("Group 2", ["b", "c"])] rfl rfl).2
      ("Group 2", ["b", "c"]) (by decide) "b" (by decide)⟩

/-- C2 (counterexample): with `cor(a,b) = 0.95 > 0.9`, `cor(b,c) = 0.95 >
0.9` and `cor(a,c) = 0.5 ≤ 0.9`, the claim predicts `a` and `c` in the same
group; the code instead skips `b` entirely once absorbed (an absorbed column
never scans), so `c` starts its own group and no group holds both `a` and
`c`. -/
theorem C2_counterexample :
    (group_columns ratGT dataABC corsChain 90).map (fun p => p.2) =
      .ok [("Group 1", ["a", "b"]), ("Group 2", ["c"])] ∧
    (group_columns ratGT dataABC corsChain 90).map
      (fun p => p.2.countP (fun g => g.2.contains "a" && g.2.contains "c")) = .ok 0 :=
  ⟨rfl, rfl⟩

/-- C2 (amended): under the claim's hypotheses (`A` before `B` before `C`,
`A`–`B` and `B`–`C` above the threshold, `A`–`C` not), column `C` is NOT
placed into the group whose representative is `A`: an absorbed column is
skipped and never scans, so `B` cannot pull `C` into `A`'s group. -/
theorem C2_no_transitive_pull {α : Type} (gtB : α → α → Bool) (data : List Row)
    (cors : List (List α)) (t : α) (row0 : Row)
    (dg : List (List (String × Option ℚ))) (glwc : List (String × List String))
    (h : group_columns gtB data cors t = .ok (dg, glwc))
    (h0 : data[0]? = some row0)
    (hnd : (row0.map Prod.fst).Nodup)
    (i j k : Nat) (hij : i < j) (hjk : j < k)
    (hk : k < (row0.map Prod.fst).length)
    (hAB : gtOpt gtB (entry cors i j) t = true)
    (hBC : gtOpt gtB (entry cors j k) t = true)
    (hAC : gtOpt gtB (entry cors i k) t = false)
    (p : String × List String) (hp : p ∈ glwc)
    (hhead : p.2.head? = some ((row0.map Prod.fst).get ⟨i, by omega⟩)) :
    (row0.map Prod.fst).get ⟨k, hk⟩ ∉ p.2 :=
  rep_group_not_absorbed gtB data cors t row0 dg glwc h h0 hnd i k
    (by omega) (by omega) hk hAC p hp hhead

/-- C2 (witness): the counterexample instance satisfies every hypothesis of
the amended theorem, and the conclusion specialises to `c ∉ ["a", "b"]`. -/
theorem C2_witness :
    group_columns ratGT dataABC corsChain 90 =
      .ok ([[("Group 1", some 1), ("Group 2", some 3)]],
           [("Group 1", ["a", "b"]), ("Group 2", ["c"])]) ∧
    "c" ∉ ["a", "b"] :=
  ⟨rfl,
    C2_no_transitive_pull ratGT dataABC corsChain 90 [("a", 1), ("b", 2), ("c", 3)]
      [[("Group 1", some 1), ("Group 2", some 3)]]
      [("Group 1", ["a", "b"]), ("Group 2", ["c"])] rfl rfl (by decide)
      0 1 2 (by omega) (by omega) (by decide) rfl rfl rfl
      ("Group 1", ["a", "b"]) (by decide) rfl⟩

/-- C3 (counterexample): at threshold `0.999999` the result still has two
groups `["a","b"]` and `["c"]`, not three singletons: `cor(a,b)` is exactly
`1.0`, which strictly exceeds `0.999999`. -/
theorem C3_counterexample :
    ((correlation_matrix dataA).bind
      (fun m => group_columns realGT dataA m (999999/1000000))).map
      (fun p => p.2.map Prod.snd) = .ok [["a", "b"], ["c"]] := by
  have hm : correlation_matrix dataA = .ok corsA := rfl
  rw [hm]
  show (group_columns realGT dataA corsA (999999/1000000)).map
    (fun p => p.2.map Prod.snd) = _
  rw [group_columns_congr realGT ratGT dataA corsA corsAQ (999999/1000000) 90
    corsA_shape corsA_decisions_strict]
  rfl

/-- C3 (amended): on Scenario A's dataset with threshold `0.999999` the
grouping result equals the threshold-`0.9` result — `{"Group 1": ["a","b"],
"Group 2": ["c"]}` with the grouped dataset keeping column `a`'s and `c`'s
values — because `cor(a,b) = 1.0 > 0.999999`; three singleton groups would
require a threshold of at least `1`. -/
theorem C3_scenarioB_two_groups :
    (correlation_matrix dataA).bind
      (fun m => group_columns realGT dataA m (999999/1000000)) =
      .ok ([[("Group 1", some 1), ("Group 2", some 10)],
            [("Group 1", some 2), ("Group 2", some 1)],
            [("Group 1", some 3), ("Group 2", some 5)]],
           [("Group 1", ["a", "b"]), ("Group 2", ["c"])]) := by
  have hm : correlation_matrix dataA = .ok corsA := rfl
  rw [hm]
  show group_columns realGT dataA corsA (999999/1000000) = _
  rw [group_columns_congr realGT ratGT dataA corsA corsAQ (999999/1000000) 90
    corsA_shape corsA_decisions_strict]
  rfl

/-- C5 (counterexample): grouping performs no dimension validation at all.
With a one-column dataset and a 2×2 matrix (a genuine dimension mismatch)
the call silently succeeds instead of failing with any error. -/
theorem C5_counterexample :
    group_columns ratGT [[("a", (1 : ℚ))]] [[1, 2], [3, 4]] 0 =
      .ok ([[("Group 1", some 1)]], [("Group 1", ["a"])]) := by
  rfl

/-- C5 (amended): there is no `DimensionMismatchError` in the code.  An
undersized matrix makes the scan read a missing entry and fail with a
generic `IndexError`; an oversized matrix is silently accepted, with only
the needed top-left entries read. -/
theorem C5_no_dimension_check :
    group_columns ratGT [[("a", (1 : ℚ)), ("b", 2)]] [] 0 = .error .indexError ∧
    group_columns ratGT dataABC
      [[0, 100, 100], [0, 0, 100], [0, 0, 0], [9, 9, 9, 9]] 50 =
      .ok ([[("Group 1", some 1)]], [("Group 1", ["a", "b", "c"])]) :=
  ⟨rfl, rfl⟩

/-- C6 (counterexample): rows with equal column counts but entirely
different keys are accepted silently — the correlation computation reads
values positionally through each row's own key list and returns a matrix,
instead of failing with any shape error. -/
theorem C6_counterexample :
    correlation_matrix dataMixedKeys = .ok [[1, 1], [1, 1]] := by
  have h : correlation_matrix dataMixedKeys =
      .ok [[pearson [1, 3] [1, 3], pearson [1, 3] [2, 4]],
           [pearson [2, 4] [1, 3], pearson [2, 4] [2, 4]]] := rfl
  rw [h, pearson_13_13, pearson_13_24, pearson_24_13, pearson_24_24]

/-- C6 (amended): there is no `DataShapeError` in the code.  An empty
dataset fails with a generic `IndexError` (from `data[0]`), a row shorter
than the first row fails with a generic `IndexError` (indexing past its key
list), and rows with equal column counts but different keys are silently
accepted. -/
theorem C6_index_error_not_shape_error :
    correlation_matrix [] = .error .indexError ∧
    correlation_matrix dataShortRow = .error .indexError ∧
    (correlation_matrix dataMixedKeys).toOption = some [[1, 1], [1, 1]] := by
  refine ⟨rfl, rfl, ?_⟩
  have h : correlation_matrix dataMixedKeys =
      .ok [[pearson [1, 3] [1, 3], pearson [1, 3] [2, 4]],
           [pearson [2, 4] [1, 3], pearson [2, 4] [2, 4]]] := rfl
  rw [h, pearson_13_13, pearson_13_24, pearson_24_13, pearson_24_24]
  rfl

/-- C7: Scenario A.  On `[{a:1,b:2,c:10}, {a:2,b:4,c:1}, {a:3,b:6,c:5}]`
with its computed correlation matrix and threshold `0.9`, grouping returns
`GroupAssignment {"Group 1": ["a","b"], "Group 2": ["c"]}` and
`GroupedDataset [{"Group 1":1,"Group 2":10}, {"Group 1":2,"Group 2":1},
{"Group 1":3,"Group 2":5}]`. -/
theorem C7_scenarioA :
    (correlation_matrix dataA).bind
      (fun m => group_columns realGT dataA m (9/10)) =
      .ok ([[("Group 1", some 1), ("Group 2", some 10)],
            [("Group 1", some 2), ("Group 2", some 1)],
            [("Group 1", some 3), ("Group 2", some 5)]],
           [("Group 1", ["a", "b"]), ("Group 2", ["c"])]) := by
  have hm : correlation_matrix dataA = .ok corsA := rfl
  rw [hm]
  show group_columns realGT dataA corsA (9/10) = _
  rw [group_columns_congr realGT ratGT dataA corsA corsAQ (9/10) 90
    corsA_shape corsA_decisions_nine_tenths]
  rfl

/-- C8: a NaN correlation entry never causes grouping.  If `cors[i][j]` is
NaN then (NaN failing every IEEE-754 comparison) the threshold test is
false, so the column at index `j` is never a member of the group whose
representative is the column at index `i`. -/
theorem C8_nan_never_grouped (data : List Row) (cors : List (List FVal)) (t : FVal)
    (row0 : Row) (dg : List (List (String × Option ℚ)))
    (glwc : List (String × List String))
    (h : group_columns fvalGT data cors t = .ok (dg, glwc))
    (h0 : data[0]? = some row0)
    (hnd : (row0.map Prod.fst).Nodup)
    (i j : Nat) (hij : i ≠ j)
    (hi : i < (row0.map Prod.fst).length)
    (hj : j < (row0.map Prod.fst).length)
    (hnan : entry cors i j = some FVal.nan)
    (p : String × List String) (hp : p ∈ glwc)
    (hhead : p.2.head? = some ((row0.map Prod.fst).get ⟨i, hi⟩)) :
    (row0.map Prod.fst).get ⟨j, hj⟩ ∉ p.2 :=
  rep_group_not_absorbed fvalGT data cors t row0 dg glwc h h0 hnd i j hij hi hj
    (by rw [hnan]; exact fvalGT_nan t) p hp hhead

/-- C8 (witness): a two-column run whose off-diagonal entry is NaN; the
second column is not grouped with the first. -/
theorem C8_witness :
    group_columns fvalGT dataAB corsNaN (.num 0) =
      .ok ([[("Group 1", some 1), ("Group 2", some 2)],
            [("Group 1", some 2), ("Group 2", some 4)]],
           [("Group 1", ["a"]), ("Group 2", ["b"])]) ∧
    "b" ∉ ["a"] :=
  ⟨rfl,
    C8_nan_never_grouped dataAB corsNaN (.num 0) [("a", 1), ("b", 2)]
      [[("Group 1", some 1), ("Group 2", some 2)],
       [("Group 1", some 2), ("Group 2", some 4)]]
      [("Group 1", ["a"]), ("Group 2", ["b"])] rfl rfl (by decide)
      0 1 (by omega) (by decide) (by decide) rfl
      ("Group 1", ["a"]) (by decide) rfl⟩

/-- C9: every matrix returned by the correlation computation on a valid
(non-empty, rectangular) dataset is symmetric. -/
theorem C9_symmetry (data : List Row) (row0 : Row) (M : List (List ℝ))
    (h0 : data[0]? = some row0)
    (hrect : ∀ row ∈ data, row.map Prod.fst = row0.map Prod.fst)
    (h : correlation_matrix data = .ok M)
    (i j : Nat) : entry M i j = entry M j i :=
  correlation_matrix_symm data M h i j

/-- C9 (witness): the Scenario A dataset's matrix, symmetric at `(0, 2)`. -/
theorem C9_witness :
    correlation_matrix dataA = .ok corsA ∧ entry corsA 0 2 = entry corsA 2 0 :=
  ⟨rfl, C9_symmetry dataA [("a", 1), ("b", 2), ("c", 10)] corsA rfl (by decide)
    rfl 0 2⟩

/-- C10: the outputs of `group_columns` depend only on the strictly upper
triangular entries of the matrix (and its shape): two matrices of the same
shape agreeing at every entry `(i, j)` with `i < j` produce identical
results — the scan reads only `cors[val][leftover]` with `leftover > val`,
so diagonal and lower-triangle values are never consulted. -/
theorem C10_upper_triangle_only {α : Type} (gtB : α → α → Bool) (data : List Row)
    (cors cors' : List (List α)) (t : α)
    (hrows : ∀ i : Nat, (cors[i]?).map List.length = (cors'[i]?).map List.length)
    (hupper : ∀ i j : Nat, i < j → entry cors i j = entry cors' i j) :
    group_columns gtB data cors t = group_columns gtB data cors' t :=
  group_columns_congr gtB gtB data cors cors' t t hrows
    (fun i j hij => by rw [hupper i j hij])

/-- C10 (witness): two 2×2 matrices sharing only the strictly-upper entry
produce the same grouping on a concrete dataset. -/
theorem C10_witness :
    group_columns ratGT dataAB [[0, 100], [77, -3]] 0 =
      group_columns ratGT dataAB [[42, 100], [0, 5]] 0 :=
  C10_upper_triangle_only ratGT dataAB [[0, 100], [77, -3]] [[42, 100], [0, 5]] 0
    (fun i => match i with
      | 0 => rfl
      | 1 => rfl
      | i + 2 => rfl)
    (fun i j hij => by
      match i, j with
      | 0, 1 => rfl
      | 0, 0 => exact absurd hij (by omega)
      | 1, 0 => exact absurd hij (by omega)
      | 1, 1 => exact absurd hij (by omega)
      | 0, j + 2 => rfl
      | 1, j + 2 => rfl
      | i + 2, j => rfl)

/-- C4 (counterexample): the number of groups is not monotone in the
threshold.  With four columns and correlations `a`–`b` = 50, `b`–`c` =
`b`–`d` = 80 (others 0): at threshold 70 the groups are `{a}, {b,c,d}`
(2 groups); at the lower threshold 30 column `a` absorbs `b`, which then
never scans, leaving `{a,b}, {c}, {d}` (3 groups). -/
theorem C4_counterexample :
    ((30 : ℚ) < 70) ∧
    (group_columns ratGT dataABCD corsNonMono 30).map (fun p => p.2.length) = .ok 3 ∧
    (group_columns ratGT dataABCD corsNonMono 70).map (fun p => p.2.length) = .ok 2 ∧
    ¬ (3 : ℕ) ≤ 2 :=
  ⟨by norm_num, rfl, rfl, by omega⟩

/-- C4 (amended): monotonicity does hold for datasets with at most two
columns: with `t₁ ≤ t₂`, whenever both runs succeed, the group count at
`t₁` is at most the count at `t₂` (0 or 1 columns always give one group;
with 2 columns the count is 1 when the single scanned entry exceeds the
threshold and 2 otherwise, and exceeding `t₂` implies exceeding `t₁`). -/
theorem C4_two_column_monotone (data : List Row) (cors : List (List ℚ)) (t₁ t₂ : ℚ)
    (row0 : Row)
    (dg₁ dg₂ : List (List (String × Option ℚ))) (g₁ g₂ : List (String × List String))
    (h0 : data[0]? = some row0)
    (hlen : row0.length ≤ 2)
    (hnd : (row0.map Prod.fst).Nodup)
    (ht : t₁ ≤ t₂)
    (h₁ : group_columns ratGT data cors t₁ = .ok (dg₁, g₁))
    (h₂ : group_columns ratGT data cors t₂ = .ok (dg₂, g₂)) :
    g₁.length ≤ g₂.length := by
  simp only [group_columns] at h₁ h₂
  rw [pyIdx_eq_ok h0, ok_bind] at h₁ h₂
  have hlen2 : (row0.map Prod.fst).length ≤ 2 := by simpa using hlen
  obtain ⟨cl, hcl⟩ : ∃ cl : List String, row0.map Prod.fst = cl := ⟨_, rfl⟩
  rw [hcl] at h₁ h₂ hnd hlen2
  clear hcl
  match cl, hlen2, hnd, h₁, h₂ with
  | [], _, _, h₁, h₂ =>
    simp only [groupStep, Except.ok.injEq, Prod.mk.injEq] at h₁ h₂
    rw [← h₁.2, ← h₂.2]
  | [c0], _, _, h₁, h₂ =>
    simp only [groupStep, List.map_cons, List.map_nil, List.flatten,
      List.not_mem_nil, if_neg, List.append_nil] at h₁ h₂
    simp only [if_false] at h₁ h₂
    cases hgv : colVals data 0 with
    | error e => rw [hgv, error_bind] at h₁; exact Except.noConfusion h₁
    | ok gv =>
      rw [hgv, ok_bind] at h₁ h₂
      simp only [List.length_cons, List.length_nil, Nat.sub_self,
        List.range'_zero, leftoverLoop, ok_bind, groupStep,
        Except.ok.injEq, Prod.mk.injEq] at h₁ h₂
      rw [← h₁.2, ← h₂.2]
  | [c0, c1], _, hnd, h₁, h₂ =>
    have hne : c0 ≠ c1 := by
      simp only [List.nodup_cons, List.mem_singleton, List.mem_cons,
        List.not_mem_nil, or_false] at hnd
      exact hnd.1
    simp only [groupStep, List.map_cons, List.map_nil, List.flatten,
      List.append_nil, List.not_mem_nil, if_false] at h₁ h₂
    cases hgv : colVals data 0 with
    | error e => rw [hgv, error_bind] at h₁; exact Except.noConfusion h₁
    | ok gv =>
      rw [hgv, ok_bind] at h₁ h₂
      norm_num [List.length_cons, List.length_nil, List.range'_one,
        leftoverLoop] at h₁ h₂
      cases hrow : pyIdx cors 0 with
      | error e => rw [hrow, error_bind] at h₁; exact Except.noConfusion h₁
      | ok r0 =>
        rw [hrow, ok_bind] at h₁ h₂
        cases hv : pyIdx r0 1 with
        | error e => rw [hv, error_bind] at h₁; exact Except.noConfusion h₁
        | ok v =>
          rw [hv, ok_bind] at h₁ h₂
          rw [show dictSet [("Group 1", [])] (groupName 1) [c0] =
            [("Group 1", [c0])] from rfl] at h₁ h₂
          have hc1mem : c1 ∈ (List.map Prod.snd [("Group 1", [c0, c1])]).flatten := by
            simp
          have hc1notmem : ¬ c1 ∈ (List.map Prod.snd [("Group 1", [c0])]).flatten := by
            simp only [List.map_cons, List.map_nil, List.flatten,
              List.append_nil, List.mem_singleton]
            exact fun hx => hne hx.symm
          cases hb₁ : ratGT v t₁ with
          | false =>
            have hb₂ : ratGT v t₂ = false := by
              simp only [ratGT, decide_eq_false_iff_not] at hb₁ ⊢
              intro hlt
              exact hb₁ (lt_of_le_of_lt ht hlt)
            have hcond₁ : ¬ ratGT v t₁ = true := by rw [hb₁]; exact Bool.false_ne_true
            have hcond₂ : ¬ ratGT v t₂ = true := by rw [hb₂]; exact Bool.false_ne_true
            rw [if_neg hcond₁, ok_bind, if_neg hc1notmem] at h₁
            rw [if_neg hcond₂, ok_bind, if_neg hc1notmem] at h₂
            cases hgv1 : colVals data 1 with
            | error e => rw [hgv1, error_bind] at h₁; exact Except.noConfusion h₁
            | ok gv1 =>
              rw [hgv1, ok_bind, ok_bind] at h₁ h₂
              simp only [Except.ok.injEq, Prod.mk.injEq] at h₁ h₂
              rw [← h₁.2, ← h₂.2]
          | true =>
            rw [if_pos hb₁, show pyIdx [c0, c1] 1 = .ok c1 from rfl, ok_bind,
              show dictAppend [("Group 1", [c0])] (groupName 1) c1 =
                [("Group 1", [c0, c1])] from rfl, ok_bind, if_pos hc1mem] at h₁
            simp only [Except.ok.injEq, Prod.mk.injEq] at h₁
            cases hb₂ : ratGT v t₂ with
            | false =>
              have hcond₂ : ¬ ratGT v t₂ = true := by rw [hb₂]; exact Bool.false_ne_true
              rw [if_neg hcond₂, ok_bind, if_neg hc1notmem] at h₂
              cases hgv1 : colVals data 1 with
              | error e => rw [hgv1, error_bind] at h₂; exact Except.noConfusion h₂
              | ok gv1 =>
                rw [hgv1, ok_bind, ok_bind] at h₂
                simp only [Except.ok.injEq, Prod.mk.injEq] at h₂
                rw [← h₁.2, ← h₂.2,
                  show dictSet [("Group 1", [c0])] (groupName 2) [c1] =
                    [("Group 1", [c0]), (groupName 2, [c1])] from rfl]
                norm_num
            | true =>
              rw [if_pos hb₂, show pyIdx [c0, c1] 1 = .ok c1 from rfl, ok_bind,
                show dictAppend [("Group 1", [c0])] (groupName 1) c1 =
                  [("Group 1", [c0, c1])] from rfl, ok_bind, if_pos hc1mem] at h₂
              simp only [Except.ok.injEq, Prod.mk.injEq] at h₂
              rw [← h₁.2, ← h₂.2]

/-- C4 (witness): a concrete two-column pair of runs at thresholds 0 and
100 with correlation entry 95: one group at the low threshold, two at the
high one. -/
theorem C4_two_col_witness :
    group_columns ratGT dataAB [[100, 95], [95, 100]] 0 =
      .ok ([[("Group 1", some 1)], [("Group 1", some 2)]],
           [("Group 1", ["a", "b"])]) ∧
    group_columns ratGT dataAB [[100, 95], [95, 100]] 100 =
      .ok ([[("Group 1", some 1), ("Group 2", some 2)],
            [("Group 1", some 2), ("Group 2", some 4)]],
           [("Group 1", ["a"]), ("Group 2", ["b"])]) ∧
    ([("Group 1", ["a", "b"])] : List (String × List String)).length ≤
      [("Group 1", ["a"]), ("Group 2", ["b"])].length :=
  ⟨rfl, rfl,
    C4_two_column_monotone dataAB [[100, 95], [95, 100]] 0 100
      [("a", 1), ("b", 2)]
      [[("Group 1", some 1)], [("Group 1", some 2)]]
      [[("Group 1", some 1), ("Group 2", some 2)],
       [("Group 1", some 2), ("Group 2", some 4)]]
      [("Group 1", ["a", "b"])] [("Group 1", ["a"]), ("Group 2", ["b"])]
      rfl (by norm_num) (by decide) (by norm_num) rfl rfl⟩

end AutoMOO
